import Mathlib

/-!
Verification development for the media-intelligence dashboard
(`streamlitappmi.py`): a shallow embedding of its data-cleaning and
aggregation pipeline (`clean_data`, the five chart aggregates, and the
insight-prompt construction in the main block), together with theorems
about the pipeline's behaviour.

Modelling conventions:
* A pandas `DataFrame` is a header (list of column names) plus an ordered
  list of rows.
* The outcome of `pd.to_datetime(..., errors='coerce')` on a raw date cell
  is abstracted as `Option Int` (a day number, or `none` for `NaT`);
  time-of-day plays no role in any property considered here, so dates are
  modelled at day granularity and `.dt.date` is the identity.
* The outcome of `pd.to_numeric(..., errors='coerce')` followed by
  `.astype(int)` on a raw engagements cell is abstracted as `Option Int`
  (`none` for unparseable or missing input, which `to_numeric` turns into
  `NaN`).
* A missing (NaN) sentiment cell is `none`; `astype(str)` renders it as
  the literal string "nan", exactly as Python's `str` does.
* pandas `groupby(...)` with its default `sort=True` lists groups in
  ascending key order.  `sort_values(ascending=False)` computes a stable
  ascending argsort and reverses it (`nargsort` reverses the indexer),
  so a descending sort is modelled as the reverse of a stable ascending
  insertion sort.  numpy's default quicksort coincides with the stable
  insertion sort for arrays of at most 16 elements; all sorts below are
  modelled by the stable insertion sort.
-/

namespace MediaDash

/-! ### Python string primitives used by clean_data -/

/-- Characters removed by Python's str.strip() (ASCII whitespace). -/
def pyIsSpaceChar (c : Char) : Bool :=
  c = ' ' || c = Char.ofNat 9 || c = Char.ofNat 10 || c = Char.ofNat 13 ||
  c = Char.ofNat 11 || c = Char.ofNat 12

/-- Python str.strip(): drop leading and trailing whitespace characters. -/
def pyStripList (l : List Char) : List Char :=
  ((l.dropWhile pyIsSpaceChar).reverse.dropWhile pyIsSpaceChar).reverse

/-- Python str.strip() on a string. -/
def pyStr_strip (s : String) : String :=
  String.mk (pyStripList s.data)

/-- Lower-case one character (ASCII), as Python str.lower() does. -/
def pyLowerChar (c : Char) : Char :=
  if 65 ≤ c.toNat ∧ c.toNat ≤ 90 then Char.ofNat (c.toNat + 32) else c

/-- Python str.lower(). -/
def pyLower (s : String) : String :=
  String.mk (s.data.map pyLowerChar)

/-- Python str.replace(' ', '_'): every space becomes an underscore. -/
def pyReplaceSpaceUnderscore (s : String) : String :=
  String.mk (s.data.map fun c => if c = ' ' then '_' else c)

/-- Column-name canonicalization of clean_data (line 131 of
streamlitappmi.py): `col.lower().replace(' ', '_').strip()`.  Note the
order: strip() runs after every space has already been replaced by an
underscore. -/
def normalizeCol (s : String) : String :=
  pyStr_strip (pyReplaceSpaceUnderscore (pyLower s))

/-- Python astype(str) on a possibly missing (NaN) string cell: a missing
value prints as the literal string "nan". -/
def pyStrOfOptStr : Option String → String
  | none => "nan"
  | some s => s

/-! ### Order primitives -/

/-- Lexicographic less-or-equal on character lists, comparing code points,
exactly as Python compares strings. -/
def lexLeChars : List Char → List Char → Bool
  | [], _ => true
  | _ :: _, [] => false
  | a :: as, b :: bs =>
    if a.toNat = b.toNat then lexLeChars as bs
    else decide (a.toNat < b.toNat)

/-- Python string less-or-equal (code-point lexicographic order). -/
def strLeB (s t : String) : Bool :=
  lexLeChars s.data t.data

/-- Boolean less-or-equal on integers. -/
def intLeB (a b : Int) : Bool :=
  decide (a ≤ b)

/-- Boolean less-or-equal on naturals. -/
def natLeB (a b : Nat) : Bool :=
  decide (a ≤ b)

/-! ### Data model -/

/-- One raw parsed CSV row, with the fallible fields abstracted as the
outcome of the pandas coercions applied to them (see the header comment). -/
structure RawRow where
  rawDate : Option Int
  platform : String
  rawSentiment : Option String
  location : String
  rawEngagements : Option Int
  mediaType : String
deriving DecidableEq

/-- A raw parsed table: the original header plus the rows. -/
structure RawTable where
  cols : List String
  rows : List RawRow
deriving DecidableEq

/-- A normalized row as produced by clean_data. -/
structure CleanRow where
  date : Int
  platform : String
  sentiment : String
  location : String
  engagements : Int
  mediaType : String
deriving DecidableEq

/-- The normalized table returned by clean_data. -/
structure CleanTable where
  rows : List CleanRow
deriving DecidableEq

/-! ### clean_data -/

/-- The six required canonical column names (line 134). -/
def requiredColumns : List String :=
  ["date", "platform", "sentiment", "location", "engagements", "media_type"]

/-- Per-row effect of clean_data (lines 140-147): a row whose date failed
to parse is dropped; otherwise engagements defaults to 0 when missing or
unparseable, and the sentiment is stringified and lower-cased. -/
def cleanRowOfRaw (r : RawRow) : Option CleanRow :=
  r.rawDate.map fun d =>
    { date := d
      platform := r.platform
      sentiment := pyLower (pyStrOfOptStr r.rawSentiment)
      location := r.location
      engagements := r.rawEngagements.getD 0
      mediaType := r.mediaType }

/-- Final step of clean_data (line 150): `df.sort_values('date')`, an
ascending sort by date.  Modelled by the stable insertion sort, which is
exactly numpy's behaviour for frames of at most 16 rows (its quicksort
cutoff); pandas' default quicksort does not guarantee this tie order for
larger frames. -/
def sortRowsByDate (rows : List CleanRow) : List CleanRow :=
  List.insertionSort (fun a b => intLeB a.date b.date = true) rows

/-- clean_data (lines 123-152): canonicalize column names, fail with the
required-column list if any required column is absent, then coerce, drop
bad-date rows, and sort by date. -/
def cleanData (t : RawTable) : Except (List String) CleanTable :=
  let cols := t.cols.map normalizeCol
  if requiredColumns.all fun c => decide (c ∈ cols) then
    .ok ⟨sortRowsByDate (t.rows.filterMap cleanRowOfRaw)⟩
  else
    .error requiredColumns

/-! ### Aggregation primitives (pandas groupby / value_counts / sort_values) -/

/-- Distinct values in order of first occurrence (the iteration order of the
pandas hash table backing both groupby factorization and value_counts).
The accumulator holds the values already seen. -/
def dedupFirstAux {α : Type} [DecidableEq α] (seen : List α) : List α → List α
  | [] => []
  | a :: l =>
    if a ∈ seen then dedupFirstAux seen l
    else a :: dedupFirstAux (a :: seen) l

/-- Distinct values of a list, keeping the first occurrence of each. -/
def dedupFirst {α : Type} [DecidableEq α] (l : List α) : List α :=
  dedupFirstAux [] l

/-- Group keys as pandas groupby with its default sort=True lists them:
the distinct keys in ascending order. -/
def groupKeysBy {κ : Type} [DecidableEq κ] (le : κ → κ → Bool) (ks : List κ) : List κ :=
  List.insertionSort (fun a b => le a b = true) (dedupFirst ks)

/-- pandas `df.groupby(key)['engagements'].sum()`: one entry per distinct
key, keys ascending, each mapped to the sum of engagements of its rows. -/
def groupSumBy {κ : Type} [DecidableEq κ] (le : κ → κ → Bool)
    (key : CleanRow → κ) (rows : List CleanRow) : List (κ × Int) :=
  (groupKeysBy le (rows.map key)).map fun k =>
    (k, ((rows.filter fun r => decide (key r = k)).map CleanRow.engagements).sum)

/-- pandas `sort_values(ascending=False)` on a series: `nargsort` computes
an ascending argsort and reverses the whole indexer, so the descending
order is the reverse of the stable ascending order (numpy's default
quicksort is exactly this stable insertion sort for series of at most 16
entries). -/
def sortValuesDesc {κ ν : Type} (vle : ν → ν → Bool) (l : List (κ × ν)) : List (κ × ν) :=
  (List.insertionSort (fun a b => vle a.2 b.2 = true) l).reverse

/-- pandas `series.value_counts()`: occurrence counts per distinct value,
sorted descending by count. -/
def valueCountsOf (vals : List String) : List (String × Nat) :=
  sortValuesDesc natLeB ((dedupFirst vals).map fun k => (k, vals.count k))

/-! ### The five chart aggregates (create_*_chart functions) -/

/-- Aggregate behind create_sentiment_chart (line 158): sentiment
value_counts. -/
def sentimentChartData (rows : List CleanRow) : List (String × Nat) :=
  valueCountsOf (rows.map CleanRow.sentiment)

/-- Aggregate behind create_engagement_trend_chart (line 187) and the
trend prompt (line 337): engagements summed per calendar date, dates
ascending (dates are modelled at day granularity, so `.dt.date` is the
identity). -/
def trendAgg (rows : List CleanRow) : List (Int × Int) :=
  groupSumBy intLeB CleanRow.date rows

/-- Aggregate behind create_platform_engagements_chart (line 212):
engagements summed per platform, sorted descending, not truncated. -/
def platformChartData (rows : List CleanRow) : List (String × Int) :=
  sortValuesDesc intLeB (groupSumBy strLeB CleanRow.platform rows)

/-- Aggregate behind create_media_type_mix_chart (line 236): media-type
value_counts. -/
def mediaTypeChartData (rows : List CleanRow) : List (String × Nat) :=
  valueCountsOf (rows.map CleanRow.mediaType)

/-- Aggregate behind create_top_locations_chart (line 263) and the
location prompt (line 381): engagements summed per location, sorted
descending, truncated to the first 5. -/
def topLocationsChartData (rows : List CleanRow) : List (String × Int) :=
  (sortValuesDesc intLeB (groupSumBy strLeB CleanRow.location rows)).take 5

/-- The dictionary embedded in the platform insight prompt (line 357):
the platform sums sorted descending and truncated to the first 5. -/
def platformTop5 (rows : List CleanRow) : List (String × Int) :=
  (sortValuesDesc intLeB (groupSumBy strLeB CleanRow.platform rows)).take 5

/-! ### Insight prompts (main block, lines 320-385) -/

/-- Python repr of a short label string (no escaping needed for the plain
labels that occur here); chr 39 is the single-quote character. -/
def pyQuote (s : String) : String :=
  (Char.ofNat 39).toString ++ s ++ (Char.ofNat 39).toString

/-- Python repr of a dict as interpolated by the f-string prompts:
string keys quoted, values printed as ints, entries in insertion order. -/
def pyDictRepr {ν : Type} [ToString ν] (l : List (String × ν)) : String :=
  "\x7b" ++ String.intercalate ", " (l.map fun e => pyQuote e.1 ++ ": " ++ toString e.2) ++ "\x7d"

/-- Sentiment insight prompt (line 325). -/
def sentimentPromptStr (rows : List CleanRow) : String :=
  "Based on the following sentiment counts from media data: " ++
    pyDictRepr (sentimentChartData rows) ++ ". Provide top 3 concise insights."

/-- Platform insight prompt (line 358), built from the top 5 only. -/
def platformPromptStr (rows : List CleanRow) : String :=
  "Based on platform engagements: " ++
    pyDictRepr (platformTop5 rows) ++ ". Provide top 3 concise insights."

/-- Media-type insight prompt (line 370). -/
def mediaTypePromptStr (rows : List CleanRow) : String :=
  "Based on media type counts: " ++
    pyDictRepr (mediaTypeChartData rows) ++ ". Provide top 3 concise insights."

/-- Top-locations insight prompt (line 382). -/
def topLocationsPromptStr (rows : List CleanRow) : String :=
  "Based on top 5 locations by engagement: " ++
    pyDictRepr (topLocationsChartData rows) ++ ". Provide top 3 concise insights."

/-- Python runtime errors that the embedded main block can raise. -/
inductive PyErr : Type
  | keyError (key : String)
deriving DecidableEq

/-- Day count since 1970-01-01 to (year, month, day), the standard
civil-from-days conversion; used to model `strftime` on a date. -/
def civilFromDays (z0 : Int) : Int × Int × Int :=
  let z := z0 + 719468
  let era : Int := Int.fdiv z 146097
  let doe : Int := z - era * 146097
  let yoe : Int := (doe - doe / 1460 + doe / 36524 - doe / 146096) / 365
  let y : Int := yoe + era * 400
  let doy : Int := doe - (365 * yoe + yoe / 4 - yoe / 100)
  let mp : Int := (5 * doy + 2) / 153
  let d : Int := doy - (153 * mp + 2) / 5 + 1
  let m : Int := mp + (if mp < 10 then 3 else -9)
  (y + (if m ≤ 2 then 1 else 0), m, d)

/-- Left-pad a numeral with zeros. -/
def padZeros (n : Nat) (s : String) : String :=
  if n ≤ s.length then s else String.mk (List.replicate (n - s.length) '0') ++ s

/-- Python `date.strftime('%Y-%m-%d')` on a day count. -/
def strftimeYmd (day : Int) : String :=
  let ymd := civilFromDays day
  padZeros 4 (toString ymd.1) ++ "-" ++ padZeros 2 (toString ymd.2.1) ++ "-" ++
    padZeros 2 (toString ymd.2.2)

/-- Column lookup on one row of the engagement_by_date frame of the main
block (line 337).  After `reset_index`, that frame's columns are named
`date` and `engagements` (the groupby series keeps its original names; the
rename to `Total Engagements` happens only inside
create_engagement_trend_chart, not here); any other column raises
KeyError. -/
def ilocGet (row : Int × Int) (c : String) : Except PyErr Int :=
  if c = "date" then .ok row.1
  else if c = "engagements" then .ok row.2
  else .error (.keyError c)

/-- Fallback trend prompt for empty data (line 345). -/
def trendFallbackStr : String :=
  "No engagement data available. Provide top 3 general insights about engagement trends in media analysis."

/-- Trend insight prompt construction (lines 337-345).  On the non-empty
branch the code reads the column `Total Engagements` from a frame whose
columns are `date` and `engagements`, so that branch raises KeyError. -/
def trendPromptResult (rows : List CleanRow) : Except PyErr String :=
  match trendAgg rows with
  | [] => .ok trendFallbackStr
  | first :: rest =>
    let lastRow := (first :: rest).getLastD first
    let firstDate := strftimeYmd first.1
    let lastDate := strftimeYmd lastRow.1
    do
      let initialEngagements ← ilocGet first "Total Engagements"
      let finalEngagements ← ilocGet lastRow "Total Engagements"
      return "Based on engagement data from " ++ firstDate ++ " to " ++ lastDate ++
        ", with initial engagements of " ++ toString initialEngagements ++
        " and final engagements of " ++ toString finalEngagements ++
        ". Provide top 3 concise insights about the engagement trend."

/-! ### The main pipeline (lines 297-392) -/

/-- Everything the dashboard renders for one upload: the five chart
aggregates and the five insight prompts sent to the remote service, in
page order. -/
structure Dashboard where
  sentimentChart : List (String × Nat)
  sentimentPrompt : String
  trendChart : List (Int × Int)
  trendPrompt : String
  platformChart : List (String × Int)
  platformPrompt : String
  mediaTypeChart : List (String × Nat)
  mediaTypePrompt : String
  topLocationsChart : List (String × Int)
  topLocationsPrompt : String
deriving DecidableEq

/-- The blocks already rendered when the trend-prompt KeyError fires:
the sentiment chart and prompt and the trend chart (the top-level handler
at line 390 does not retract them). -/
structure EarlyBlocks where
  sentimentChart : List (String × Nat)
  sentimentPrompt : String
  trendChart : List (Int × Int)
deriving DecidableEq

/-- Outcome of one upload run of the main block. -/
inductive RunOutcome : Type
  | schemaError (required : List String)
  | crashed (shown : EarlyBlocks) (err : PyErr)
  | completed (d : Dashboard)
deriving DecidableEq

/-- The main block: clean the data, halt with the required-column report
if cleaning failed, then build charts and prompts in page order.  The
trend-prompt KeyError (see trendPromptResult) aborts the rest of the run
and is caught by the top-level handler. -/
def runPipeline (t : RawTable) : RunOutcome :=
  match cleanData t with
  | .error req => .schemaError req
  | .ok ct =>
    let rows := ct.rows
    match trendPromptResult rows with
    | .error e => .crashed ⟨sentimentChartData rows, sentimentPromptStr rows, trendAgg rows⟩ e
    | .ok tPrompt =>
      .completed
        ⟨sentimentChartData rows, sentimentPromptStr rows,
         trendAgg rows, tPrompt,
         platformChartData rows, platformPromptStr rows,
         mediaTypeChartData rows, mediaTypePromptStr rows,
         topLocationsChartData rows, topLocationsPromptStr rows⟩

/-! ### Helper lemmas: order facts -/

theorem lexLeChars_total : ∀ as bs : List Char, lexLeChars as bs = true ∨ lexLeChars bs as = true
  | [], _ => Or.inl rfl
  | _ :: _, [] => Or.inr rfl
  | a :: as, b :: bs => by
    simp only [lexLeChars]
    by_cases h : a.toNat = b.toNat
    · rw [if_pos h, if_pos h.symm]
      exact lexLeChars_total as bs
    · rw [if_neg h, if_neg fun e => h e.symm]
      rcases Nat.lt_or_ge a.toNat b.toNat with hlt | hge
      · exact Or.inl (decide_eq_true hlt)
      · exact Or.inr (decide_eq_true (by omega))

theorem lexLeChars_trans : ∀ as bs cs : List Char,
    lexLeChars as bs = true → lexLeChars bs cs = true → lexLeChars as cs = true
  | [], _, _, _, _ => rfl
  | _ :: _, [], _, h1, _ => by simp [lexLeChars] at h1
  | _ :: _, _ :: _, [], _, h2 => by simp [lexLeChars] at h2
  | a :: as, b :: bs, c :: cs, h1, h2 => by
    simp only [lexLeChars] at h1 h2 ⊢
    by_cases hab : a.toNat = b.toNat <;> by_cases hbc : b.toNat = c.toNat
    · rw [if_pos hab] at h1
      rw [if_pos hbc] at h2
      rw [if_pos (hab.trans hbc)]
      exact lexLeChars_trans as bs cs h1 h2
    · rw [if_neg hbc] at h2
      have h2n := of_decide_eq_true h2
      rw [if_neg (by omega)]
      exact decide_eq_true (by omega)
    · rw [if_neg hab] at h1
      have h1n := of_decide_eq_true h1
      rw [if_neg (by omega)]
      exact decide_eq_true (by omega)
    · rw [if_neg hab] at h1
      rw [if_neg hbc] at h2
      have h1n := of_decide_eq_true h1
      have h2n := of_decide_eq_true h2
      rw [if_neg (by omega)]
      exact decide_eq_true (by omega)

theorem strLeB_total (s t : String) : strLeB s t = true ∨ strLeB t s = true :=
  lexLeChars_total s.data t.data

theorem strLeB_trans {s t u : String} (h1 : strLeB s t = true) (h2 : strLeB t u = true) :
    strLeB s u = true :=
  lexLeChars_trans s.data t.data u.data h1 h2

theorem intLeB_total (a b : Int) : intLeB a b = true ∨ intLeB b a = true := by
  simp only [intLeB, decide_eq_true_eq]
  exact Int.le_total a b

theorem intLeB_trans {a b c : Int} (h1 : intLeB a b = true) (h2 : intLeB b c = true) :
    intLeB a c = true := by
  simp only [intLeB, decide_eq_true_eq] at h1 h2 ⊢
  omega

theorem natLeB_total (a b : Nat) : natLeB a b = true ∨ natLeB b a = true := by
  simp only [natLeB, decide_eq_true_eq]
  exact Nat.le_total a b

theorem natLeB_trans {a b c : Nat} (h1 : natLeB a b = true) (h2 : natLeB b c = true) :
    natLeB a c = true := by
  simp only [natLeB, decide_eq_true_eq] at h1 h2 ⊢
  omega

/-! ### Helper lemmas: insertion sort -/

/-- The stable insertion sort is a permutation of its input. -/
theorem perm_isort {α : Type} (r : α → α → Prop) [DecidableRel r] (l : List α) :
    List.Perm (List.insertionSort r l) l :=
  List.perm_insertionSort r l

/-- The insertion sort by a total transitive Boolean comparison is sorted. -/
theorem pairwise_isort {α : Type} (le : α → α → Bool)
    (htot : ∀ a b, le a b = true ∨ le b a = true)
    (htrans : ∀ a b c, le a b = true → le b c = true → le a c = true)
    (l : List α) :
    (List.insertionSort (fun a b => le a b = true) l).Pairwise (fun a b => le a b = true) := by
  haveI : IsTotal α fun a b => le a b = true := ⟨htot⟩
  haveI : IsTrans α fun a b => le a b = true := ⟨fun a b c => htrans a b c⟩
  exact List.sorted_insertionSort _ l

/-- sortValuesDesc permutes its input. -/
theorem perm_sortValuesDesc {κ ν : Type} (vle : ν → ν → Bool) (l : List (κ × ν)) :
    List.Perm (sortValuesDesc vle l) l :=
  (List.reverse_perm _).trans (List.perm_insertionSort _ l)

/-- sortValuesDesc is sorted descending by value when the comparison is
total and transitive. -/
theorem pairwise_sortValuesDesc {κ ν : Type} (vle : ν → ν → Bool)
    (htot : ∀ a b, vle a b = true ∨ vle b a = true)
    (htrans : ∀ a b c, vle a b = true → vle b c = true → vle a c = true)
    (l : List (κ × ν)) :
    (sortValuesDesc vle l).Pairwise (fun a b => vle b.2 a.2 = true) := by
  unfold sortValuesDesc
  rw [List.pairwise_reverse]
  have h := pairwise_isort (fun a b : κ × ν => vle a.2 b.2)
    (fun a b => htot a.2 b.2) (fun a b c => htrans a.2 b.2 c.2) l
  exact h

/-! ### Helper lemmas: dedupFirst -/

theorem mem_dedupFirstAux {α : Type} [DecidableEq α] {a : α} :
    ∀ (l seen : List α), a ∈ dedupFirstAux seen l ↔ a ∈ l ∧ a ∉ seen := by
  intro l
  induction l with
  | nil => intro seen; simp [dedupFirstAux]
  | cons b l ih =>
    intro seen
    simp only [dedupFirstAux]
    by_cases hb : b ∈ seen
    · rw [if_pos hb, ih]
      constructor
      · rintro ⟨h1, h2⟩
        exact ⟨List.mem_cons_of_mem _ h1, h2⟩
      · rintro ⟨h1, h2⟩
        rcases List.mem_cons.mp h1 with rfl | h1
        · exact absurd hb h2
        · exact ⟨h1, h2⟩
    · rw [if_neg hb]
      constructor
      · intro h
        rcases List.mem_cons.mp h with rfl | h
        · exact ⟨List.mem_cons_self _ _, hb⟩
        · have h3 := (ih (b :: seen)).mp h
          exact ⟨List.mem_cons_of_mem _ h3.1, fun hs => h3.2 (List.mem_cons_of_mem _ hs)⟩
      · rintro ⟨h1, h2⟩
        by_cases hab : a = b
        · subst hab
          exact List.mem_cons_self _ _
        · rcases List.mem_cons.mp h1 with rfl | h1
          · exact absurd rfl hab
          · refine List.mem_cons_of_mem _ ((ih (b :: seen)).mpr ⟨h1, fun hs => ?_⟩)
            rcases List.mem_cons.mp hs with h | h
            · exact hab h
            · exact h2 h

theorem mem_dedupFirst {α : Type} [DecidableEq α] {a : α} {l : List α} :
    a ∈ dedupFirst l ↔ a ∈ l := by
  unfold dedupFirst
  rw [mem_dedupFirstAux]
  simp

theorem nodup_dedupFirstAux {α : Type} [DecidableEq α] :
    ∀ (l seen : List α), (dedupFirstAux seen l).Nodup := by
  intro l
  induction l with
  | nil => intro seen; simp [dedupFirstAux]
  | cons b l ih =>
    intro seen
    simp only [dedupFirstAux]
    by_cases hb : b ∈ seen
    · rw [if_pos hb]
      exact ih seen
    · rw [if_neg hb]
      refine List.nodup_cons.mpr ⟨fun hmem => ?_, ih (b :: seen)⟩
      exact ((mem_dedupFirstAux l (b :: seen)).mp hmem).2 (List.mem_cons_self b seen)

theorem nodup_dedupFirst {α : Type} [DecidableEq α] (l : List α) : (dedupFirst l).Nodup :=
  nodup_dedupFirstAux l []

/-! ### Helper lemmas: counting -/

/-- Summing the one-hot indicator of a member over a duplicate-free list
gives exactly 1. -/
theorem sum_map_indicator {α : Type} [DecidableEq α] :
    ∀ (ks : List α), ks.Nodup → ∀ a ∈ ks,
      (ks.map fun k => if (a == k) = true then 1 else 0).sum = 1 := by
  intro ks
  induction ks with
  | nil => intro _ a ha; cases ha
  | cons k ks ih =>
    intro hnd a ha
    have hnd2 := List.nodup_cons.mp hnd
    rcases List.mem_cons.mp ha with rfl | ha2
    · have hz : ((ks.map fun k2 => if (a == k2) = true then 1 else 0).sum : Nat) = 0 := by
        apply List.sum_eq_zero
        intro x hx
        rcases List.mem_map.mp hx with ⟨k2, hk2, rfl⟩
        have hne : a ≠ k2 := fun he => hnd2.1 (he ▸ hk2)
        simp [hne]
      rw [List.map_cons, List.sum_cons, hz]
      simp
    · have hka : a ≠ k := fun he => hnd2.1 (he ▸ ha2)
      have hbeq : (a == k) = false := beq_eq_false_iff_ne.mpr hka
      simp only [List.map_cons, List.sum_cons, hbeq, Bool.false_eq_true, if_false]
      have := ih hnd2.2 a ha2
      omega

/-- Summing, over a duplicate-free covering key list, the number of
occurrences of each key gives the length of the list. -/
theorem sum_counts_cover {α : Type} [DecidableEq α] (ks : List α) :
    ∀ (l : List α), ks.Nodup → (∀ a ∈ l, a ∈ ks) →
      (ks.map fun k => l.count k).sum = l.length := by
  intro l
  induction l with
  | nil => intro _ _; simp
  | cons a l ih =>
    intro hnd hcov
    have hcov2 : ∀ x ∈ l, x ∈ ks := fun x hx => hcov x (List.mem_cons_of_mem _ hx)
    have hsplit : (ks.map fun k => (a :: l).count k).sum =
        (ks.map fun k => l.count k + if (a == k) = true then 1 else 0).sum := by
      apply congrArg
      apply List.map_congr_left
      intro k _
      rw [List.count_cons]
    rw [hsplit, List.sum_map_add, ih hnd hcov2,
      sum_map_indicator ks hnd a (hcov a (List.mem_cons_self a l))]
    simp [List.length_cons]

/-! ### Helper lemmas: stability of the descending value sort -/

/-- Strict key order on aggregate entries. -/
def keyLtP (a b : String × Int) : Prop :=
  strLeB a.1 b.1 = true ∧ a.1 ≠ b.1

/-- Ascending value order with ties in strict ascending key order. -/
def ascTie (a b : String × Int) : Prop :=
  a.2 < b.2 ∨ (a.2 = b.2 ∧ keyLtP a b)

theorem ascTie_le {a b : String × Int} (h : ascTie a b) : a.2 ≤ b.2 := by
  rcases h with h | ⟨h, _⟩
  · exact le_of_lt h
  · exact le_of_eq h

theorem pairwise_ascTie_orderedInsert (a : String × Int) :
    ∀ m : List (String × Int), m.Pairwise ascTie → (∀ b ∈ m, keyLtP a b) →
      (List.orderedInsert (fun x y => intLeB x.2 y.2 = true) a m).Pairwise ascTie := by
  intro m
  induction m with
  | nil => intro _ _; exact List.pairwise_singleton _ a
  | cons b m ih =>
    intro hm ha
    have hm2 := List.pairwise_cons.mp hm
    rw [List.orderedInsert]
    by_cases h : intLeB a.2 b.2 = true
    · rw [if_pos h]
      have hab : a.2 ≤ b.2 := by
        simpa [intLeB, decide_eq_true_eq] using h
      refine List.pairwise_cons.mpr ⟨?_, hm⟩
      intro x hx
      have hax : a.2 ≤ x.2 := by
        rcases List.mem_cons.mp hx with rfl | hx2
        · exact hab
        · exact le_trans hab (ascTie_le (hm2.1 x hx2))
      rcases lt_or_eq_of_le hax with hlt | heq
      · exact Or.inl hlt
      · exact Or.inr ⟨heq, ha x hx⟩
    · rw [if_neg h]
      have hba : b.2 < a.2 := by
        simp only [intLeB, decide_eq_true_eq] at h
        omega
      refine List.pairwise_cons.mpr ⟨?_, ?_⟩
      · intro x hx
        rcases (List.mem_orderedInsert _).mp hx with rfl | hx2
        · exact Or.inl hba
        · exact hm2.1 x hx2
      · exact ih hm2.2 fun x hx => ha x (List.mem_cons_of_mem _ hx)

theorem pairwise_ascTie_isort :
    ∀ l : List (String × Int), l.Pairwise keyLtP →
      (List.insertionSort (fun x y => intLeB x.2 y.2 = true) l).Pairwise ascTie := by
  intro l
  induction l with
  | nil => intro _; simp [List.insertionSort]
  | cons a l ih =>
    intro hl
    have hl2 := List.pairwise_cons.mp hl
    rw [List.insertionSort]
    apply pairwise_ascTie_orderedInsert
    · exact ih hl2.2
    · intro b hb
      exact hl2.1 b ((List.perm_insertionSort _ l).mem_iff.mp hb)

/-- The descending value sort of a list whose keys are strictly ascending
is pairwise descending: later entries have smaller sums, or equal sums
with strictly smaller keys. -/
theorem pairwise_desc_sortValuesDesc (l : List (String × Int)) (hl : l.Pairwise keyLtP) :
    (sortValuesDesc intLeB l).Pairwise (fun a b => ascTie b a) := by
  unfold sortValuesDesc
  rw [List.pairwise_reverse]
  exact pairwise_ascTie_isort l hl

/-! ### Helper lemmas: cleanData and groupby structure -/

theorem cleanData_ok_rows {t : RawTable} {ct : CleanTable} (h : cleanData t = .ok ct) :
    ct.rows = sortRowsByDate (t.rows.filterMap cleanRowOfRaw) := by
  simp only [cleanData] at h
  split at h
  · cases h
    rfl
  · cases h

theorem cleanData_error_of_missing {t : RawTable}
    (h : ∃ c ∈ requiredColumns, c ∉ t.cols.map normalizeCol) :
    cleanData t = .error requiredColumns := by
  rcases h with ⟨c, hc, hnot⟩
  have hall : ¬(requiredColumns.all fun c => decide (c ∈ t.cols.map normalizeCol)) = true := by
    intro habs
    exact hnot (of_decide_eq_true (List.all_eq_true.mp habs c hc))
  simp only [cleanData]
  rw [if_neg hall]

theorem cleanRowOfRaw_eq_some {r : RawRow} {cr : CleanRow} (h : cleanRowOfRaw r = some cr) :
    r.rawDate = some cr.date ∧ cr.sentiment = pyLower (pyStrOfOptStr r.rawSentiment) ∧
      cr.engagements = r.rawEngagements.getD 0 ∧ cr.platform = r.platform ∧
      cr.location = r.location ∧ cr.mediaType = r.mediaType := by
  unfold cleanRowOfRaw at h
  cases hd : r.rawDate with
  | none =>
    rw [hd] at h
    cases h
  | some d =>
    rw [hd] at h
    rw [Option.map_some'] at h
    cases h
    exact ⟨rfl, rfl, rfl, rfl, rfl, rfl⟩

theorem cleanRowOfRaw_of_date {r : RawRow} {d : Int} (h : r.rawDate = some d) :
    cleanRowOfRaw r = some
      { date := d, platform := r.platform,
        sentiment := pyLower (pyStrOfOptStr r.rawSentiment), location := r.location,
        engagements := r.rawEngagements.getD 0, mediaType := r.mediaType } := by
  unfold cleanRowOfRaw
  rw [h, Option.map_some']

theorem length_filterMap_cleanRow (l : List RawRow) :
    (l.filterMap cleanRowOfRaw).length = (l.filter fun r => r.rawDate.isSome).length := by
  induction l with
  | nil => rfl
  | cons r l ih =>
    cases hd : r.rawDate with
    | none =>
      have hc : cleanRowOfRaw r = none := by
        unfold cleanRowOfRaw
        rw [hd]
        rfl
      simp [List.filterMap_cons, List.filter_cons, hc, hd, ih]
    | some d =>
      have hc := cleanRowOfRaw_of_date hd
      simp [List.filterMap_cons, List.filter_cons, hc, hd, ih]

/-- The rows of a successfully cleaned table are a permutation of the
per-row cleaning of the raw rows that had a parseable date. -/
theorem cleanData_ok_perm {t : RawTable} {ct : CleanTable} (h : cleanData t = .ok ct) :
    List.Perm ct.rows (t.rows.filterMap cleanRowOfRaw) := by
  rw [cleanData_ok_rows h]
  exact List.perm_insertionSort _ _

theorem mem_groupKeysBy {κ : Type} [DecidableEq κ] {le : κ → κ → Bool} {k : κ} {ks : List κ} :
    k ∈ groupKeysBy le ks ↔ k ∈ ks := by
  unfold groupKeysBy
  rw [(List.perm_insertionSort _ _).mem_iff]
  exact mem_dedupFirst

theorem map_fst_groupSumBy {κ : Type} [DecidableEq κ] (le : κ → κ → Bool)
    (key : CleanRow → κ) (rows : List CleanRow) :
    (groupSumBy le key rows).map Prod.fst = groupKeysBy le (rows.map key) := by
  unfold groupSumBy
  rw [List.map_map]
  exact List.map_id _ ▸ List.map_congr_left fun k _ => rfl

theorem pairwise_keyLtP_groupSumBy (key : CleanRow → String) (rows : List CleanRow) :
    (groupSumBy strLeB key rows).Pairwise keyLtP := by
  unfold groupSumBy
  rw [List.pairwise_map]
  have h1 : (groupKeysBy strLeB (rows.map key)).Pairwise (fun a b => strLeB a b = true) :=
    pairwise_isort strLeB strLeB_total (fun a b c => strLeB_trans) _
  have h2 : (groupKeysBy strLeB (rows.map key)).Nodup := by
    unfold groupKeysBy
    exact ((List.perm_insertionSort _ _).nodup_iff).mpr (nodup_dedupFirst _)
  exact (h1.and h2).imp fun h => ⟨h.1, h.2⟩

/-! ### Example tables used as concrete inputs -/

/-- The canonical CSV header of the dashboard's expected upload. -/
def exHeader : List String :=
  ["Date", "Platform", "Sentiment", "Location", "Engagements", "Media Type"]

/-- A table whose header lacks four of the required columns. -/
def exMissingTable : RawTable := ⟨["Date", "Platform"], []⟩

/-- A header-only upload: the full header and zero data rows. -/
def exEmptyTable : RawTable := ⟨exHeader, []⟩

/-- A table with one row carrying a negative engagements value. -/
def exNegTable : RawTable :=
  ⟨exHeader, [⟨some 1, "X", some "Positive", "NY", some (-5), "video"⟩]⟩

/-- The cleaned table of exNegTable. -/
def exNegClean : CleanTable := ⟨[⟨1, "X", "positive", "NY", -5, "video"⟩]⟩

/-- A table with a bad-date row between two good rows (out of date order),
one of which has an unparseable engagements cell. -/
def exDateTable : RawTable :=
  ⟨exHeader,
   [⟨some 2, "X", some "Positive", "NY", some 10, "video"⟩,
    ⟨none, "X", some "negative", "LA", some 7, "image"⟩,
    ⟨some 1, "T", some "Neutral", "SF", none, "text"⟩]⟩

/-- The cleaned table of exDateTable: the bad-date row is gone, the rest
are sorted by date, the missing engagements became 0. -/
def exDateClean : CleanTable :=
  ⟨[⟨1, "T", "neutral", "SF", 0, "text"⟩,
    ⟨2, "X", "positive", "NY", 10, "video"⟩]⟩

/-- A table with one row whose sentiment cell is missing (NaN). -/
def exNanTable : RawTable :=
  ⟨exHeader, [⟨some 3, "X", none, "NY", some 4, "video"⟩]⟩

/-- The cleaned table of exNanTable. -/
def exNanClean : CleanTable := ⟨[⟨3, "X", "nan", "NY", 4, "video"⟩]⟩

/-- Two cleaned rows with equal engagement sums in two locations, the
location "a" encountered first. -/
def exTieRows : List CleanRow :=
  [⟨1, "p", "s", "a", 10, "m"⟩, ⟨1, "p", "s", "b", 10, "m"⟩]

/-- The dashboard the run produces for the header-only upload. -/
def exEmptyDash : Dashboard :=
  ⟨[], "Based on the following sentiment counts from media data: \x7b\x7d. Provide top 3 concise insights.",
   [], trendFallbackStr,
   [], "Based on platform engagements: \x7b\x7d. Provide top 3 concise insights.",
   [], "Based on media type counts: \x7b\x7d. Provide top 3 concise insights.",
   [], "Based on top 5 locations by engagement: \x7b\x7d. Provide top 3 concise insights."⟩

end MediaDash

deriving instance DecidableEq for Except

namespace MediaDash

/-! ### Claim theorems -/

/-- C1: a raw table that is missing at least one of the six required
columns after column-name canonicalization makes clean_data fail with the
required-column report, and the pipeline halts at the schema error: no
chart aggregate and no insight prompt is produced for that upload. -/
theorem claim_C1_schema_failure_halts (t : RawTable)
    (h : ∃ c ∈ requiredColumns, c ∉ t.cols.map normalizeCol) :
    cleanData t = .error requiredColumns ∧
      runPipeline t = .schemaError requiredColumns := by
  have hc := cleanData_error_of_missing h
  refine ⟨hc, ?_⟩
  unfold runPipeline
  rw [hc]

/-- C1 witness: a header with only Date and Platform is rejected and the
run stops at the schema error. -/
theorem claim_C1_witness :
    cleanData exMissingTable = .error requiredColumns ∧
      runPipeline exMissingTable = .schemaError requiredColumns :=
  claim_C1_schema_failure_halts exMissingTable ⟨"sentiment", by decide, by decide⟩

/-- C2: the canonicalizer maps "Media Type" and "MEDIA_TYPE" to
"media_type", but because its strip() runs after every space has already
been replaced by an underscore, " media_type " canonicalizes to
"_media_type_" (not "media_type"), and a table whose media-type header is
" media_type " is rejected by the required-column check. -/
theorem claim_C2_canonicalization :
    normalizeCol "Media Type" = "media_type" ∧
      normalizeCol "MEDIA_TYPE" = "media_type" ∧
      normalizeCol " media_type " = "_media_type_" ∧
      "_media_type_" ≠ "media_type" ∧
      cleanData ⟨["date", "platform", "sentiment", "location", "engagements", " media_type "], []⟩ =
        .error requiredColumns :=
  ⟨by decide, by decide, by decide, by decide, by decide⟩

/-- C3 counterexample: a raw engagements value of -5 survives cleaning as
the negative integer -5, so cleaned engagements are not always
non-negative. -/
theorem claim_C3_counterexample :
    (cleanData exNegTable).map (fun ct => ct.rows.map CleanRow.engagements) =
      .ok [-5] ∧ (-5 : Int) < 0 :=
  ⟨by decide, by decide⟩

/-- C3 amended: every cleaned row's engagements is the integer produced by
the numeric coercion of its raw cell, with missing or unparseable cells
defaulting to 0; the value is negative exactly when the raw cell parsed to
a negative number. -/
theorem claim_C3_engagements (t : RawTable) (ct : CleanTable)
    (h : cleanData t = .ok ct) :
    ∀ cr ∈ ct.rows, ∃ r ∈ t.rows,
      cleanRowOfRaw r = some cr ∧ cr.engagements = r.rawEngagements.getD 0 := by
  intro cr hcr
  rcases List.mem_filterMap.mp ((cleanData_ok_perm h).mem_iff.mp hcr) with ⟨r, hr, hcrr⟩
  exact ⟨r, hr, hcrr, (cleanRowOfRaw_eq_some hcrr).2.2.1⟩

/-- C3 witness: the amended statement at the concrete negative-value
table, instantiated at its one cleaned row. -/
theorem claim_C3_witness :
    ∃ r ∈ exNegTable.rows,
      cleanRowOfRaw r = some ⟨1, "X", "positive", "NY", -5, "video"⟩ ∧
        (⟨1, "X", "positive", "NY", -5, "video"⟩ : CleanRow).engagements =
          r.rawEngagements.getD 0 :=
  claim_C3_engagements exNegTable exNegClean (by decide)
    ⟨1, "X", "positive", "NY", -5, "video"⟩ (by decide)

/-- C4: the cleaned rows are a permutation of the per-row cleaning of
exactly the raw rows whose date parsed (rows with an unparseable date are
absent), their number is the number of raw rows with a parseable date, and
every cleaned row carries the successfully parsed date of a raw row. -/
theorem claim_C4_dates (t : RawTable) (ct : CleanTable) (h : cleanData t = .ok ct) :
    List.Perm ct.rows (t.rows.filterMap cleanRowOfRaw) ∧
      ct.rows.length = (t.rows.filter fun r => r.rawDate.isSome).length ∧
      ∀ cr ∈ ct.rows, ∃ r ∈ t.rows, r.rawDate = some cr.date := by
  have hperm := cleanData_ok_perm h
  refine ⟨hperm, ?_, ?_⟩
  · rw [hperm.length_eq, length_filterMap_cleanRow]
  · intro cr hcr
    rcases List.mem_filterMap.mp (hperm.mem_iff.mp hcr) with ⟨r, hr, hcrr⟩
    exact ⟨r, hr, (cleanRowOfRaw_eq_some hcrr).1⟩

/-- C4 witness: the date characterization at a concrete table with one
unparseable date among three rows. -/
theorem claim_C4_witness :
    List.Perm exDateClean.rows (exDateTable.rows.filterMap cleanRowOfRaw) ∧
      exDateClean.rows.length = (exDateTable.rows.filter fun r => r.rawDate.isSome).length ∧
      ∀ cr ∈ exDateClean.rows, ∃ r ∈ exDateTable.rows, r.rawDate = some cr.date :=
  claim_C4_dates exDateTable exDateClean (by decide)

/-- C6 counterexample: on the header-only upload the run completes, but
the sentiment prompt is not a generic fallback: it embeds the empty
aggregate as the literal text of an empty dict, unlike the trend prompt
which does use the generic fallback. -/
theorem claim_C6_counterexample :
    runPipeline exEmptyTable = .completed exEmptyDash ∧
      exEmptyDash.sentimentPrompt =
        "Based on the following sentiment counts from media data: \x7b\x7d. Provide top 3 concise insights." ∧
      exEmptyDash.sentimentPrompt ≠ trendFallbackStr ∧
      exEmptyDash.trendPrompt = trendFallbackStr :=
  ⟨by decide, by decide, by decide, by decide⟩

/-- C6 amended: on any upload whose cleaning succeeds with zero rows, the
run completes without raising; only the trend prompt is the generic
fallback, while the sentiment, platform, media-type and top-locations
prompts embed their empty aggregates as the literal text of an empty
dict. -/
theorem claim_C6_empty_prompts (t : RawTable) (ct : CleanTable)
    (h : cleanData t = .ok ct) (hrows : ct.rows = []) :
    runPipeline t = .completed exEmptyDash := by
  cases ct with
  | mk rows =>
    cases hrows
    unfold runPipeline
    rw [h]
    decide

/-- C6 witness: the amended statement at the header-only upload. -/
theorem claim_C6_witness : runPipeline exEmptyTable = .completed exEmptyDash :=
  claim_C6_empty_prompts exEmptyTable ⟨[]⟩ (by decide) rfl

/-- C7 counterexample: two locations with equal sums, "a" encountered
first in the table, yet the top-locations aggregate lists "b" first, so
ties are not broken by first encounter. -/
theorem claim_C7_counterexample :
    topLocationsChartData exTieRows = [("b", 10), ("a", 10)] ∧
      topLocationsChartData exTieRows ≠ [("a", 10), ("b", 10)] ∧
      exTieRows.map CleanRow.location = ["a", "b"] :=
  ⟨by decide, by decide, by decide⟩

/-- C7 amended: the top-locations aggregate has at most 5 entries and is
pairwise descending: each later entry has a strictly smaller sum, or an
equal sum and a strictly smaller location key — that is, ties are ordered
by descending location key (the reverse of the alphabetical groupby
order), not by first encounter. -/
theorem claim_C7_top_locations (rows : List CleanRow) :
    (topLocationsChartData rows).length ≤ 5 ∧
      (topLocationsChartData rows).Pairwise (fun a b => ascTie b a) := by
  constructor
  · exact le_trans (Nat.le_of_eq (List.length_take 5 _)) (Nat.min_le_left 5 _)
  · unfold topLocationsChartData
    exact (pairwise_desc_sortValuesDesc _
      (pairwise_keyLtP_groupSumBy CleanRow.location rows)).sublist (List.take_sublist 5 _)

/-- C8: the platform chart aggregate has an entry for every distinct
platform of the table (and nothing else), while the platform prompt embeds
only the first five entries of the descending order; every platform kept
in the prompt has a summed engagement at least as large as every platform
left out. -/
theorem claim_C8_platform_asymmetry (rows : List CleanRow) :
    (∀ p, p ∈ (platformChartData rows).map Prod.fst ↔ p ∈ rows.map CleanRow.platform) ∧
      platformTop5 rows = (platformChartData rows).take 5 ∧
      (platformTop5 rows).length = min 5 (platformChartData rows).length ∧
      ∀ a ∈ platformTop5 rows, ∀ b ∈ (platformChartData rows).drop 5, b.2 ≤ a.2 := by
  have hperm := (perm_sortValuesDesc intLeB (groupSumBy strLeB CleanRow.platform rows)).map
    Prod.fst
  unfold platformChartData platformTop5
  refine ⟨?_, rfl, ?_, ?_⟩
  · intro p
    rw [hperm.mem_iff, map_fst_groupSumBy, mem_groupKeysBy]
  · exact List.length_take 5 _
  · have hpair : (platformChartData rows).Pairwise (fun a b => ascTie b a) :=
      pairwise_desc_sortValuesDesc _ (pairwise_keyLtP_groupSumBy CleanRow.platform rows)
    rw [← List.take_append_drop 5 (platformChartData rows)] at hpair
    intro a ha b hb
    exact ascTie_le ((List.pairwise_append.mp hpair).2.2 a ha b hb)

/-- C9: the sentiment-breakdown counts sum to the number of rows of the
normalized table. -/
theorem claim_C9_sentiment_counts_sum (rows : List CleanRow) :
    ((sentimentChartData rows).map Prod.snd).sum = rows.length := by
  unfold sentimentChartData valueCountsOf
  have hperm := (perm_sortValuesDesc natLeB
    ((dedupFirst (rows.map CleanRow.sentiment)).map fun k =>
      (k, (rows.map CleanRow.sentiment).count k))).map Prod.snd
  rw [hperm.sum_eq, List.map_map]
  have hcomp : (Prod.snd ∘ fun k => (k, (rows.map CleanRow.sentiment).count k)) =
      fun k => (rows.map CleanRow.sentiment).count k := rfl
  rw [hcomp, sum_counts_cover _ _ (nodup_dedupFirst _) (fun a ha => mem_dedupFirst.mpr ha),
    List.length_map]

/-- C10: a raw row with a missing sentiment and a parseable date survives
cleaning (it is not dropped for the missing sentiment) with sentiment the
literal lower-case string "nan", and "nan" appears as a key of the
sentiment-breakdown aggregate. -/
theorem claim_C10_missing_sentiment (t : RawTable) (ct : CleanTable) (r : RawRow) (d : Int)
    (h : cleanData t = .ok ct) (hr : r ∈ t.rows) (hs : r.rawSentiment = none)
    (hd : r.rawDate = some d) :
    (∃ cr ∈ ct.rows, cr.sentiment = "nan" ∧ cr.date = d) ∧
      "nan" ∈ (sentimentChartData ct.rows).map Prod.fst := by
  have hclean := cleanRowOfRaw_of_date hd
  rw [hs] at hclean
  have hsent : pyLower (pyStrOfOptStr (none : Option String)) = "nan" := by decide
  have hmem := (cleanData_ok_perm h).mem_iff.mpr (List.mem_filterMap.mpr ⟨r, hr, hclean⟩)
  refine ⟨⟨_, hmem, hsent, rfl⟩, ?_⟩
  have h1 : "nan" ∈ ct.rows.map CleanRow.sentiment := List.mem_map.mpr ⟨_, hmem, hsent⟩
  have h2 : "nan" ∈ dedupFirst (ct.rows.map CleanRow.sentiment) := mem_dedupFirst.mpr h1
  have h3 : "nan" ∈ ((dedupFirst (ct.rows.map CleanRow.sentiment)).map fun k =>
      (k, (ct.rows.map CleanRow.sentiment).count k)).map Prod.fst := by
    rw [List.map_map]
    have hcomp : (Prod.fst ∘ fun k => (k, (ct.rows.map CleanRow.sentiment).count k)) =
        fun k => k := rfl
    rw [hcomp]
    simpa using h2
  unfold sentimentChartData valueCountsOf
  exact ((perm_sortValuesDesc natLeB _).map Prod.fst).mem_iff.mpr h3

/-- C10 witness: the missing-sentiment behaviour at a concrete one-row
table. -/
theorem claim_C10_witness :
    (∃ cr ∈ exNanClean.rows, cr.sentiment = "nan" ∧ cr.date = 3) ∧
      "nan" ∈ (sentimentChartData exNanClean.rows).map Prod.fst :=
  claim_C10_missing_sentiment exNanTable exNanClean
    ⟨some 3, "X", none, "NY", some 4, "video"⟩ 3 (by decide) (by decide) rfl rfl

end MediaDash
